import Mathlib

/-!
Verification development for the secretfriend voice/CLI front-end.

The Python source (sound_listener.py, command_processor.py, speech_output.py,
voice_mode.py) is shallowly embedded: strings are Lean `String`s, Python
string helpers (`lower`, `strip`, `split`, `find`, slicing, `in`) are
re-implemented below on `List Char` so that every definition is executable
and kernel-reducible, similarity scores are rationals, and the stateful
listening loops are functions over explicit event traces.
-/

namespace SecretFriend

/-! ### Python string primitives -/

/-- Python `str.lower()`: character-wise lower-casing. -/
def pyLower (s : String) : String :=
  String.mk (s.data.map Char.toLower)

/-- Python `str.strip()`: remove leading and trailing whitespace. -/
def pyStrip (s : String) : String :=
  String.mk (((s.data.dropWhile Char.isWhitespace).reverse.dropWhile Char.isWhitespace).reverse)

/-- Helper for `pySplit`: split a character list into maximal runs of
non-whitespace characters, `cur` being the (reversed) run in progress. -/
def wordsAux (cur : List Char) : List Char → List String
  | [] => if cur = [] then [] else [String.mk cur.reverse]
  | c :: cs =>
    if c.isWhitespace then
      if cur = [] then wordsAux [] cs
      else String.mk cur.reverse :: wordsAux [] cs
    else wordsAux (c :: cur) cs

/-- Python `str.split()` with no separator: whitespace-delimited words,
empty strings discarded. -/
def pySplit (s : String) : List String :=
  wordsAux [] s.data

/-- Delete every occurrence of character `c`; models Python
`str.replace(c, "")` for a single-character pattern. -/
def removeChar (c : Char) (s : String) : String :=
  String.mk (s.data.filter (fun x => x != c))

/-- Python `sep.join(parts)`. -/
def joinSep (sep : String) : List String → String
  | [] => ""
  | [x] => x
  | x :: y :: rest => x ++ sep ++ joinSep sep (y :: rest)

/-- `occursAt sub l i` is true when `sub` occurs in `l` starting at index `i`. -/
def occursAt (sub l : List Char) (i : Nat) : Bool :=
  sub.isPrefixOf (l.drop i)

/-- Index of the first occurrence of `sub` in `l`; models Python `str.find`
(`none` standing for `-1`). -/
def firstOccur (sub : List Char) : List Char → Option Nat
  | [] => if sub = [] then some 0 else none
  | c :: cs => if sub.isPrefixOf (c :: cs) then some 0 else (firstOccur sub cs).map (· + 1)

/-- Python `str.find(sub, start)`: first occurrence at index `start` or later. -/
def findFrom (sub l : List Char) (start : Nat) : Option Nat :=
  (firstOccur sub (l.drop start)).map (· + start)

/-- Python substring membership `sub in s` (on character lists). -/
def containsSub (sub l : List Char) : Bool :=
  (firstOccur sub l).isSome

/-! ### Lemmas about occurrence search -/

theorem occursAt_zero (sub l : List Char) : occursAt sub l 0 = sub.isPrefixOf l := rfl

theorem occursAt_succ (sub : List Char) (c : Char) (cs : List Char) (k : Nat) :
    occursAt sub (c :: cs) (k + 1) = occursAt sub cs k := rfl

theorem firstOccur_spec (sub : List Char) :
    ∀ (l : List Char) (i : Nat), firstOccur sub l = some i →
      occursAt sub l i = true ∧ ∀ k, k < i → occursAt sub l k = false := by
  intro l
  induction l with
  | nil =>
    intro i h
    unfold firstOccur at h
    by_cases hs : sub = ([] : List Char)
    · rw [if_pos hs] at h
      cases h
      refine ⟨by simp [occursAt, hs], ?_⟩
      intro k hk
      exact absurd hk (Nat.not_lt_zero k)
    · rw [if_neg hs] at h
      cases h
  | cons c cs ih =>
    intro i h
    unfold firstOccur at h
    by_cases hp : sub.isPrefixOf (c :: cs) = true
    · rw [if_pos hp] at h
      cases h
      refine ⟨by simpa [occursAt] using hp, ?_⟩
      intro k hk
      exact absurd hk (Nat.not_lt_zero k)
    · rw [if_neg hp] at h
      rcases Option.map_eq_some'.mp h with ⟨j, hj, rfl⟩
      rcases ih j hj with ⟨h1, h2⟩
      refine ⟨by simpa [occursAt_succ] using h1, ?_⟩
      intro k hk
      cases k with
      | zero =>
        rw [occursAt_zero, ← Bool.not_eq_true]
        exact hp
      | succ k' =>
        rw [occursAt_succ]
        exact h2 k' (Nat.lt_of_succ_lt_succ hk)

theorem firstOccur_of_occursAt (sub : List Char) :
    ∀ (l : List Char) (j : Nat), occursAt sub l j = true →
      ∃ i, firstOccur sub l = some i ∧ i ≤ j := by
  intro l
  induction l with
  | nil =>
    intro j h
    have hs : sub = ([] : List Char) := by
      have := h
      unfold occursAt at this
      simpa [List.isPrefixOf_iff_prefix] using this
    exact ⟨0, by simp [firstOccur, hs], Nat.zero_le j⟩
  | cons c cs ih =>
    intro j h
    by_cases hp : sub.isPrefixOf (c :: cs) = true
    · exact ⟨0, by simp [firstOccur, hp], Nat.zero_le j⟩
    · cases j with
      | zero =>
        rw [occursAt_zero] at h
        exact absurd h hp
      | succ j' =>
        rw [occursAt_succ] at h
        rcases ih j' h with ⟨i, hi, hle⟩
        refine ⟨i + 1, ?_, Nat.succ_le_succ hle⟩
        simp [firstOccur, hp, hi]

theorem containsSub_iff (sub l : List Char) :
    containsSub sub l = true ↔ ∃ i, occursAt sub l i = true := by
  constructor
  · intro h
    rcases Option.isSome_iff_exists.mp h with ⟨i, hi⟩
    exact ⟨i, (firstOccur_spec sub l i hi).1⟩
  · rintro ⟨i, hi⟩
    rcases firstOccur_of_occursAt sub l i hi with ⟨j, hj, _⟩
    simp [containsSub, hj]

theorem containsSub_of_firstOccur {sub l : List Char} {i : Nat}
    (h : firstOccur sub l = some i) : containsSub sub l = true := by
  simp [containsSub, h]

theorem occursAt_length_le {sub l : List Char} {i : Nat}
    (h : occursAt sub l i = true) : sub.length ≤ l.length := by
  unfold occursAt at h
  rw [List.isPrefixOf_iff_prefix] at h
  calc sub.length ≤ (l.drop i).length := h.length_le
    _ ≤ l.length := by simp

theorem containsSub_length_le {sub l : List Char}
    (h : containsSub sub l = true) : sub.length ≤ l.length := by
  rcases (containsSub_iff sub l).mp h with ⟨i, hi⟩
  exact occursAt_length_le hi

theorem occursAt_decomp {sub l : List Char} {i : Nat}
    (h : occursAt sub l i = true) :
    ∃ suf, l = l.take i ++ sub ++ suf := by
  unfold occursAt at h
  rw [List.isPrefixOf_iff_prefix] at h
  rcases h with ⟨t, ht⟩
  refine ⟨t, ?_⟩
  conv_lhs => rw [← List.take_append_drop i l]
  rw [← ht, List.append_assoc]

/-! ### Text similarity and echo filtering (SoundDeviceListener) -/

/-- The shorter of two strings, with ties resolved as in the source
(`text1 if len(text1) < len(text2) else text2`). -/
def shorterStr (t1 t2 : String) : String :=
  if t1.data.length < t2.data.length then t1 else t2

/-- The longer of two strings (`text2 if len(text1) < len(text2) else text1`). -/
def longerStr (t1 t2 : String) : String :=
  if t1.data.length < t2.data.length then t2 else t1

/-- Python `set(t.split())`: the distinct whitespace-delimited words of `t`. -/
def wordSet (t : String) : List String :=
  (pySplit t).dedup

/-- Size of the intersection of the two word sets
(`len(words1.intersection(words2))`). -/
def commonCount (t1 t2 : String) : Nat :=
  ((wordSet t1).filter (fun w => decide (w ∈ wordSet t2))).length

/-- `SoundDeviceListener._text_similarity` (sound_listener.py lines 109-131):
0 if either input is empty; after lower-casing, 1 if the shorter string is a
substring of the longer; 0 if either word set is empty; otherwise the number
of common words over the smaller word-set size.  The quotient is written
`mkRat a b`, which equals the rational `a / b` (`Rat.mkRat_eq_div`) and is
kernel-computable. -/
def text_similarity (text1 text2 : String) : ℚ :=
  if text1 = "" ∨ text2 = "" then 0
  else if containsSub (shorterStr (pyLower text1) (pyLower text2)).data
                      (longerStr (pyLower text1) (pyLower text2)).data then 1
  else if wordSet (pyLower text1) = [] ∨ wordSet (pyLower text2) = [] then 0
  else mkRat (commonCount (pyLower text1) (pyLower text2))
             (min (wordSet (pyLower text1)).length (wordSet (pyLower text2)).length)

/-- The similarity algorithm as the specification words it: 1.0 when the
shorter normalized string is a literal substring of the longer, otherwise
the common-word count over the smaller word-set size, and 0 when either
input is empty.  (The spec formula silently divides 0 by 0 when a non-empty
input has no words; as a rational that quotient is 0.)  Written from the
spec text, to be compared against `text_similarity`, which is written from
the source. -/
def specSimilarity (text1 text2 : String) : ℚ :=
  if text1 = "" ∨ text2 = "" then 0
  else if containsSub (shorterStr (pyLower text1) (pyLower text2)).data
                      (longerStr (pyLower text1) (pyLower text2)).data then 1
  else mkRat (commonCount (pyLower text1) (pyLower text2))
             (min (wordSet (pyLower text1)).length (wordSet (pyLower text2)).length)

/-- Normalization applied by `set_last_spoken` and `should_ignore_text`:
`text.lower().strip().replace('.', '').replace('?', '').replace('!', '')`. -/
def normalizeSpoken (text : String) : String :=
  removeChar '!' (removeChar '?' (removeChar '.' (pyStrip (pyLower text))))

/-- `SoundDeviceListener.set_last_spoken` (sound_listener.py lines 86-91):
overwrite the single last-spoken slot with the normalized text, unless the
argument is empty (Python falsy), in which case the slot is unchanged. -/
def set_last_spoken (lastSpoken : Option String) (text : String) : Option String :=
  if text = "" then lastSpoken else some (normalizeSpoken text)

/-- `SoundDeviceListener.should_ignore_text` (sound_listener.py lines 93-107):
false when no last-spoken text is stored (or it is empty) or the candidate is
empty; otherwise true exactly when the similarity of the cleaned candidate to
the stored text is strictly above 0.7. -/
def should_ignore_text (lastSpoken : Option String) (text : String) : Bool :=
  match lastSpoken with
  | none => false
  | some last =>
    if last = "" ∨ text = "" then false
    else decide (mkRat 7 10 < text_similarity (normalizeSpoken text) last)

theorem commonCount_left_nil {t1 : String} (t2 : String) (h : wordSet t1 = []) :
    commonCount t1 t2 = 0 := by
  unfold commonCount
  rw [h]
  rfl

theorem commonCount_right_nil (t1 : String) {t2 : String} (h : wordSet t2 = []) :
    commonCount t1 t2 = 0 := by
  unfold commonCount
  rw [h]
  simp

/-- Claim C1: the echo similarity function returns 1.0 when the shorter
normalized string is a literal substring of the longer, otherwise the number
of common whitespace-delimited words over the smaller word-set size, and 0
when either input is empty, for every pair of input strings (the source and
the spec formula agree on all inputs; when a non-empty input has no words the
spec quotient is 0/0 = 0 in ℚ, which is also what the source returns). -/
theorem text_similarity_matches_spec (text1 text2 : String) :
    text_similarity text1 text2 = specSimilarity text1 text2 := by
  unfold text_similarity specSimilarity
  by_cases h1 : text1 = "" ∨ text2 = ""
  · rw [if_pos h1, if_pos h1]
  · rw [if_neg h1, if_neg h1]
    by_cases h2 : containsSub (shorterStr (pyLower text1) (pyLower text2)).data
        (longerStr (pyLower text1) (pyLower text2)).data = true
    · rw [if_pos h2, if_pos h2]
    · rw [if_neg h2, if_neg h2]
      by_cases h3 : wordSet (pyLower text1) = [] ∨ wordSet (pyLower text2) = []
      · rw [if_pos h3]
        rcases h3 with h3 | h3
        · rw [commonCount_left_nil _ h3]
          simp
        · rw [commonCount_right_nil _ h3]
          simp
      · rw [if_neg h3]

/-- After a non-empty recording, the stored slot is exactly the normalized
text of that recording, whatever was stored before. -/
theorem set_last_spoken_nonempty {text : String} (lastSpoken : Option String)
    (h : text ≠ "") :
    set_last_spoken lastSpoken text = some (normalizeSpoken text) := by
  unfold set_last_spoken
  rw [if_neg h]

theorem string_ne_empty_iff (s : String) : s ≠ "" ↔ s.data ≠ [] := by
  constructor
  · intro h hd
    exact h (String.ext hd)
  · intro h he
    rw [he] at h
    exact h rfl

theorem should_ignore_text_some (last text : String) :
    should_ignore_text (some last) text =
      if last = "" ∨ text = "" then false
      else decide (mkRat 7 10 < text_similarity (normalizeSpoken text) last) := rfl

/-- Claim C2 counterexample: with last-spoken text "listen" recorded, the
candidate "glistening" shares no whitespace-delimited word with it, yet it is
classified as echo (the character-level substring check yields similarity
1.0), so "a candidate sharing no words with T is not classified as echo" is
false as stated. -/
theorem echo_no_shared_words_counterexample :
    should_ignore_text (set_last_spoken none "listen") "glistening" = true ∧
    (∀ w ∈ pySplit (normalizeSpoken "glistening"), w ∉ pySplit (normalizeSpoken "listen")) :=
  ⟨by decide, by decide⟩

/-- Claim C2 (amended): for any non-empty normalized text `T` recorded as
last spoken, a normalized recognized candidate equal to `T` or containing
`T` as a substring is classified as echo; and a candidate sharing no words
with `T`, provided neither the normalized candidate nor `T` is a
character-level substring of the other, is not classified as echo. -/
theorem echo_suppression_amended (T c d : String)
    (hT : T ≠ "")
    (hTl : pyLower T = T)
    (hTn : normalizeSpoken T = T)
    (hcl : pyLower c = c)
    (hcn : normalizeSpoken c = c)
    (hsub : containsSub T.data c.data = true)
    (hdl : pyLower (normalizeSpoken d) = normalizeSpoken d)
    (hdisj : ∀ w ∈ pySplit (normalizeSpoken d), w ∉ pySplit T)
    (hd2 : containsSub T.data (normalizeSpoken d).data = false)
    (hd3 : containsSub (normalizeSpoken d).data T.data = false) :
    should_ignore_text (set_last_spoken none T) c = true ∧
    should_ignore_text (set_last_spoken none T) d = false := by
  have hlen : T.data.length ≤ c.data.length := containsSub_length_le hsub
  have hc : c ≠ "" := by
    rw [string_ne_empty_iff]
    intro hce
    have hTd : T.data ≠ [] := (string_ne_empty_iff T).mp hT
    rw [hce] at hlen
    simp at hlen
    exact hTd (List.eq_nil_of_length_eq_zero hlen)
  rw [set_last_spoken_nonempty none hT, hTn]
  constructor
  · rw [should_ignore_text_some, if_neg (not_or.mpr ⟨hT, hc⟩), hcn]
    have hsim : text_similarity c T = 1 := by
      unfold text_similarity
      rw [if_neg (not_or.mpr ⟨hc, hT⟩), hcl, hTl]
      have hshort : shorterStr c T = T := by
        unfold shorterStr
        rw [if_neg (Nat.not_lt.mpr hlen)]
      have hlong : longerStr c T = c := by
        unfold longerStr
        rw [if_neg (Nat.not_lt.mpr hlen)]
      rw [hshort, hlong, if_pos hsub]
    rw [hsim]
    exact decide_eq_true (by decide)
  · rw [should_ignore_text_some]
    by_cases hd : d = ""
    · rw [if_pos (Or.inr hd)]
    · rw [if_neg (not_or.mpr ⟨hT, hd⟩)]
      have hsim0 : text_similarity (normalizeSpoken d) T = 0 := by
        by_cases hD : normalizeSpoken d = ""
        · unfold text_similarity
          rw [if_pos (Or.inl hD)]
        · unfold text_similarity
          rw [if_neg (not_or.mpr ⟨hD, hT⟩), hdl, hTl]
          have hbr : containsSub (shorterStr (normalizeSpoken d) T).data
              (longerStr (normalizeSpoken d) T).data = false := by
            unfold shorterStr longerStr
            by_cases hlt : (normalizeSpoken d).data.length < T.data.length
            · rw [if_pos hlt, if_pos hlt]
              exact hd3
            · rw [if_neg hlt, if_neg hlt]
              exact hd2
          rw [hbr, if_neg Bool.false_ne_true]
          by_cases h3 : wordSet (normalizeSpoken d) = [] ∨ wordSet T = []
          · rw [if_pos h3]
          · rw [if_neg h3]
            have hcc : commonCount (normalizeSpoken d) T = 0 := by
              unfold commonCount
              rw [List.length_eq_zero, List.filter_eq_nil_iff]
              intro w hw
              have hw1 : w ∈ pySplit (normalizeSpoken d) := List.mem_dedup.mp hw
              have hw2 : w ∉ wordSet T := fun hmem =>
                hdisj w hw1 (List.mem_dedup.mp hmem)
              simpa using hw2
            rw [hcc]
            simp
      rw [hsim0]
      exact decide_eq_false (by decide)

/-- Witness for `echo_suppression_amended` at wake-like concrete inputs:
with "listen up" recorded, the containing candidate "i said listen up" is
classified as echo and the unrelated candidate "hello world" is not. -/
theorem echo_suppression_amended_witness :
    should_ignore_text (set_last_spoken none "listen up") "i said listen up" = true ∧
    should_ignore_text (set_last_spoken none "listen up") "hello world" = false :=
  echo_suppression_amended "listen up" "i said listen up" "hello world"
    (by decide) (by decide) (by decide) (by decide) (by decide) (by decide)
    (by decide) (by decide) (by decide) (by decide)

/-- Claim C9 counterexample: recording the spoken text "Hello, World!"
stores exactly the bare string "hello, world" — the comma survives (only
'.', '?', '!' are removed, so punctuation is not stripped in general), and
the slot holds a string with no timestamp. -/
theorem record_spoken_punctuation_counterexample :
    set_last_spoken none "Hello, World!" = some "hello, world" ∧
    ("hello, world").data.contains ',' = true :=
  ⟨by decide, by decide⟩

/-- Claim C9 (amended): recording a spoken utterance stores a single slot
holding only the normalized text of the most recent system utterance —
lower-cased, trimmed, with the characters '.', '?' and '!' removed —
overwriting any prior value and retaining no history: after any sequence of
recordings ending in a non-empty text `t`, the slot is exactly
`normalizeSpoken t`, independent of the initial slot and of all earlier
recordings. -/
theorem record_spoken_single_slot (init : Option String) (texts : List String)
    (t : String) (ht : t ≠ "") :
    List.foldl set_last_spoken init (texts ++ [t]) = some (normalizeSpoken t) := by
  rw [List.foldl_append]
  exact set_last_spoken_nonempty _ ht

/-- Witness for `record_spoken_single_slot`: two earlier recordings and a
differing initial slot are all overwritten by the last recording. -/
theorem record_spoken_single_slot_witness :
    List.foldl set_last_spoken (some "old") (["First reply.", "Second reply?"] ++ ["Go ahead!"])
      = some "go ahead" := by
  have h := record_spoken_single_slot (some "old") ["First reply.", "Second reply?"]
    "Go ahead!" (by decide)
  rw [h]
  rfl

/-! ### Command collection (`listen_for_command`, sound_listener.py lines 255-296)

The loop is embedded as a function over an explicit trace of loop
iterations.  Each `Event` records the wall-clock time `checkTime` at which
the iteration's timeout checks run, the time `hearTime` at which a
recognized segment arrived (the value `time.time()` assigned to
`last_activity`), and the segment `text` returned by
`listen_for_phrase(timeout=1)` in that iteration (`""` when nothing was
recognized).  The result is `none` when the trace is exhausted before the
loop terminates, and `some r` when the source loop returns `r`. -/

structure Event where
  checkTime : ℚ
  hearTime : ℚ
  text : String

/-- The exact sentinel string returned when the overall timeout fires with
nothing accumulated. -/
def noCommandSentinel : String := "Sorry, I didn\x27t hear your command."

/-- Python `text.split(sep, 1)[0]`: the part of `text` before the first
occurrence of `sep` (the whole string when `sep` does not occur). -/
def splitFirstPre (sep s : String) : String :=
  match firstOccur sep.data s.data with
  | some i => String.mk (s.data.take i)
  | none => s

/-- `listen_for_command` (sound_listener.py lines 255-296): check the
overall timeout (returning the sentinel if nothing was accumulated),
then the silence timeout (only once something was accumulated), then
process the recognized segment: ignore it when empty; when it contains the
end phrase, append the part before the end phrase plus a space and return
the stripped accumulation; otherwise append it plus a space and update
`last_activity` to the time it was heard. -/
def listen_for_command (endCmd : String) (timeout sil startTime : ℚ) :
    List Event → String → ℚ → Option String
  | [], _, _ => none
  | e :: rest, full, lastAct =>
    if timeout < e.checkTime - startTime then
      if full = "" then some noCommandSentinel else some (pyStrip full)
    else if sil < e.checkTime - lastAct ∧ full ≠ "" then
      some (pyStrip full)
    else if e.text = "" then
      listen_for_command endCmd timeout sil startTime rest full lastAct
    else if containsSub endCmd.data (pyLower e.text).data then
      some (pyStrip (full ++ splitFirstPre endCmd (pyLower e.text) ++ " "))
    else
      listen_for_command endCmd timeout sil startTime rest (full ++ e.text ++ " ") e.hearTime

/-- Shared helper: when every segment in the trace is empty and some
iteration crosses the overall timeout, the loop returns the sentinel
(nothing is ever accumulated, so the silence branch never fires). -/
theorem listen_for_command_sentinel (endCmd : String) (timeout sil startTime : ℚ) :
    ∀ (events : List Event) (lastAct : ℚ),
      (∀ e ∈ events, e.text = "") →
      (∃ e ∈ events, timeout < e.checkTime - startTime) →
      listen_for_command endCmd timeout sil startTime events "" lastAct
        = some noCommandSentinel := by
  intro events
  induction events with
  | nil =>
    intro lastAct _ hto
    rcases hto with ⟨e, he, _⟩
    exact absurd he (List.not_mem_nil e)
  | cons e rest ih =>
    intro lastAct hempty hto
    by_cases hc : timeout < e.checkTime - startTime
    · unfold listen_for_command
      rw [if_pos hc, if_pos rfl]
    · have hte : e.text = "" := hempty e (List.mem_cons_self e rest)
      unfold listen_for_command
      rw [if_neg hc, if_neg (by simp), if_pos hte]
      apply ih
      · intro x hx
        exact hempty x (List.mem_cons_of_mem e hx)
      · rcases hto with ⟨x, hx, hxt⟩
        rcases List.mem_cons.mp hx with rfl | hx'
        · exact absurd hxt hc
        · exact ⟨x, hx', hxt⟩

/-- Claim C4: if no non-empty segment is ever recognized and some iteration
crosses `overall_timeout`, collection returns the "no command heard"
sentinel; and when the overall timeout fires with a non-empty accumulation,
the stripped accumulated text is returned instead of the sentinel. -/
theorem overall_timeout_behavior (endCmd : String) (timeout sil startTime : ℚ) :
    (∀ (events : List Event) (lastAct : ℚ),
      (∀ e ∈ events, e.text = "") →
      (∃ e ∈ events, timeout < e.checkTime - startTime) →
      listen_for_command endCmd timeout sil startTime events "" lastAct
        = some noCommandSentinel)
    ∧ (∀ (e : Event) (rest : List Event) (full : String) (lastAct : ℚ),
      timeout < e.checkTime - startTime → full ≠ "" →
      listen_for_command endCmd timeout sil startTime (e :: rest) full lastAct
        = some (pyStrip full)) := by
  constructor
  · exact listen_for_command_sentinel endCmd timeout sil startTime
  · intro e rest full lastAct hc hfull
    unfold listen_for_command
    rw [if_pos hc, if_neg hfull]

/-- Witness for `overall_timeout_behavior`: a single iteration at time 31
with timeout 30 returns the sentinel when nothing was heard, and the
accumulated text when something was. -/
theorem overall_timeout_behavior_witness :
    listen_for_command "go for it" 30 5 0 [⟨31, 31, ""⟩] "" 0 = some noCommandSentinel ∧
    listen_for_command "go for it" 30 5 0 [⟨31, 31, ""⟩] "turn on " 0 = some "turn on" := by
  constructor
  · exact (overall_timeout_behavior "go for it" 30 5 0).1 [⟨31, 31, ""⟩] 0
      (by intro e he; simp at he; rw [he]) ⟨⟨31, 31, ""⟩, by simp, by norm_num⟩
  · have h := (overall_timeout_behavior "go for it" 30 5 0).2 ⟨31, 31, ""⟩ [] "turn on " 0
      (by norm_num) (by decide)
    rw [h]
    rfl

/-- Claim C5: with something accumulated, an iteration whose check time is
past the silence window (but not past the overall timeout) returns the
stripped accumulation; with nothing accumulated an empty-segment iteration
always continues (the silence condition never ends collection); and a
non-empty segment without the end phrase is appended and `last_activity`
becomes the time it was heard. -/
theorem silence_timeout_precedence (endCmd : String) (timeout sil startTime : ℚ)
    (hst : sil < timeout) :
    (∀ (e : Event) (rest : List Event) (full : String) (lastAct : ℚ),
      full ≠ "" → ¬ timeout < e.checkTime - startTime → sil < e.checkTime - lastAct →
      listen_for_command endCmd timeout sil startTime (e :: rest) full lastAct
        = some (pyStrip full))
    ∧ (∀ (e : Event) (rest : List Event) (lastAct : ℚ),
      ¬ timeout < e.checkTime - startTime → e.text = "" →
      listen_for_command endCmd timeout sil startTime (e :: rest) "" lastAct
        = listen_for_command endCmd timeout sil startTime rest "" lastAct)
    ∧ (∀ (e : Event) (rest : List Event) (full : String) (lastAct : ℚ),
      ¬ timeout < e.checkTime - startTime →
      ¬ (sil < e.checkTime - lastAct ∧ full ≠ "") →
      e.text ≠ "" → containsSub endCmd.data (pyLower e.text).data = false →
      listen_for_command endCmd timeout sil startTime (e :: rest) full lastAct
        = listen_for_command endCmd timeout sil startTime rest (full ++ e.text ++ " ") e.hearTime) := by
  refine ⟨?_, ?_, ?_⟩
  · intro e rest full lastAct hfull hc hs
    unfold listen_for_command
    rw [if_neg hc, if_pos ⟨hs, hfull⟩]
  · intro e rest lastAct hc hte
    conv_lhs => unfold listen_for_command
    rw [if_neg hc, if_neg (by simp), if_pos hte]
  · intro e rest full lastAct hc hs hne hinf
    conv_lhs => unfold listen_for_command
    rw [if_neg hc, if_neg hs, if_neg hne, hinf, if_neg Bool.false_ne_true]

/-- Witness for `silence_timeout_precedence`: with "turn on " accumulated and
last activity at time 2, the iteration at time 10 ends collection on the
silence timeout (5s) even though the overall timeout (30s) has not elapsed. -/
theorem silence_timeout_precedence_witness :
    listen_for_command "go for it" 30 5 0 [⟨10, 10, ""⟩] "turn on " 2 = some "turn on" := by
  have h := (silence_timeout_precedence "go for it" 30 5 0 (by norm_num)).1
    ⟨10, 10, ""⟩ [] "turn on " 2 (by decide) (by norm_num) (by norm_num)
  rw [h]
  rfl

/-- Claim C3: a recognized (lower-case) segment containing the end phrase
ends collection with exactly the part of the segment preceding the first
occurrence of the end phrase appended (plus the separating space, with the
final result stripped); the segment decomposes as that prefix, then the end
phrase, then a discarded suffix, and the prefix is minimal (the first
occurrence is used), so the end phrase and everything after it are
discarded. -/
theorem end_phrase_trimming (endCmd : String) (timeout sil startTime : ℚ)
    (e : Event) (rest : List Event) (full : String) (lastAct : ℚ)
    (hlow : pyLower e.text = e.text)
    (h1 : ¬ timeout < e.checkTime - startTime)
    (h2 : ¬ (sil < e.checkTime - lastAct ∧ full ≠ ""))
    (hne : e.text ≠ "")
    (hinf : containsSub endCmd.data e.text.data = true) :
    listen_for_command endCmd timeout sil startTime (e :: rest) full lastAct
      = some (pyStrip (full ++ splitFirstPre endCmd e.text ++ " "))
    ∧ (∃ suf, e.text.data = (splitFirstPre endCmd e.text).data ++ endCmd.data ++ suf)
    ∧ (∀ p q, e.text.data = p ++ endCmd.data ++ q →
        (splitFirstPre endCmd e.text).data.length ≤ p.length) := by
  rcases Option.isSome_iff_exists.mp hinf with ⟨i, hi⟩
  have hsp : splitFirstPre endCmd e.text = String.mk (e.text.data.take i) := by
    unfold splitFirstPre
    rw [hi]
  rcases firstOccur_spec endCmd.data e.text.data i hi with ⟨hocc, hmin⟩
  refine ⟨?_, ?_, ?_⟩
  · conv_lhs => unfold listen_for_command
    rw [if_neg h1, if_neg h2, if_neg hne, hlow, if_pos hinf]
  · rcases occursAt_decomp hocc with ⟨suf, hsuf⟩
    exact ⟨suf, by rw [hsp]; exact hsuf⟩
  · intro p q hpq
    have hoccp : occursAt endCmd.data e.text.data p.length = true := by
      unfold occursAt
      rw [hpq, List.append_assoc, List.drop_left]
      rw [List.isPrefixOf_iff_prefix]
      exact List.prefix_append endCmd.data q
    have hip : i ≤ p.length := by
      by_contra hlt
      rw [hmin p.length (Nat.lt_of_not_le hlt)] at hoccp
      exact Bool.false_ne_true hoccp
    rw [hsp]
    calc (e.text.data.take i).length ≤ i := by
          rw [List.length_take]
          exact Nat.min_le_left i _
      _ ≤ p.length := hip

/-- Witness for `end_phrase_trimming`: the spec's concrete example — the
segment "turn the lights on go for it extra" with end phrase "go for it"
yields the collected command "turn the lights on". -/
theorem end_phrase_trimming_witness :
    listen_for_command "go for it" 30 5 0 [⟨1, 1, "turn the lights on go for it extra"⟩] "" 0
      = some "turn the lights on" := by
  have h := end_phrase_trimming "go for it" 30 5 0
    ⟨1, 1, "turn the lights on go for it extra"⟩ [] "" 0
    (by decide) (by norm_num) (by simp) (by decide) (by decide)
  rw [h.1]
  rfl

/-! ### Wake-word detection (`listen_for_wake_word`, sound_listener.py lines 197-253) -/

/-- The lenient wake-word variant list built at the top of
`listen_for_wake_word`: the full phrase, then (for multi-word phrases) the
first and last word, then (for phrases of more than two words) the
first-two and last-two word spans. -/
def wakeVariants (wakePhrase : String) : List String :=
  [wakePhrase] ++
  (if 1 < (pySplit wakePhrase).length then
    [(pySplit wakePhrase).headD "", (pySplit wakePhrase).getLastD ""] ++
    (if 2 < (pySplit wakePhrase).length then
      [joinSep " " ((pySplit wakePhrase).take 2),
       joinSep " " ((pySplit wakePhrase).drop ((pySplit wakePhrase).length - 2))]
     else [])
   else [])

/-- The variant set as the specification words it: "the full phrase, its
first word, its last word, and (if the phrase has at least 3 words) its
first-two and last-two word spans".  Written from the spec text, to be
compared with `wakeVariants`, which is written from the source. -/
def specWakeVariants (wakePhrase : String) : List String :=
  [wakePhrase, (pySplit wakePhrase).headD "", (pySplit wakePhrase).getLastD ""] ++
  (if 3 ≤ (pySplit wakePhrase).length then
    [joinSep " " ((pySplit wakePhrase).take 2),
     joinSep " " ((pySplit wakePhrase).drop ((pySplit wakePhrase).length - 2))]
   else [])

/-- One polled recognition result matches when some wake variant is a
substring of the lower-cased, stripped text (the source applies
`.lower().strip()` to both full and partial results before the check). -/
def wakeMatch (wakePhrase t : String) : Bool :=
  (wakeVariants wakePhrase).any (fun w => containsSub w.data (pyStrip (pyLower t)).data)

/-- `listen_for_wake_word` over a trace of polled recognition texts: the
unbounded source loop returns true as soon as some polled text matches, so
on a finite trace it fires exactly when some text matches. -/
def listen_for_wake_word (wakePhrase : String) (texts : List String) : Bool :=
  texts.any (wakeMatch wakePhrase)

/-- Claim C6: for a canonically spaced wake phrase the derived variant list
has exactly the members the spec describes (full phrase, first word, last
word, and for phrases of at least 3 words the first-two and last-two word
spans); detection fires exactly when some variant appears as a substring of
the lower-cased (stripped) recognized text; and for wake phrase
"listen up" it fires on inputs containing "listen up", "listen", or "up",
but not on unrelated text. -/
theorem wake_variant_detection (wake : String)
    (hcanon : wake = joinSep " " (pySplit wake)) :
    (∀ v, v ∈ wakeVariants wake ↔ v ∈ specWakeVariants wake)
    ∧ (∀ texts : List String, listen_for_wake_word wake texts = true ↔
        ∃ t ∈ texts, ∃ v ∈ wakeVariants wake,
          containsSub v.data (pyStrip (pyLower t)).data = true)
    ∧ wakeMatch "listen up" "well listen up now" = true
    ∧ wakeMatch "listen up" "listen to me" = true
    ∧ wakeMatch "listen up" "what is up" = true
    ∧ wakeMatch "listen up" "hello there" = false := by
  refine ⟨?_, ?_, by decide, by decide, by decide, by decide⟩
  · intro v
    rcases hsplit : pySplit wake with _ | ⟨a, tl⟩
    · have hw : wake = "" := by
        rw [hcanon, hsplit]
        rfl
      unfold wakeVariants specWakeVariants
      rw [hsplit, hw]
      simp
    · rcases tl with _ | ⟨b, tl2⟩
      · have hw : wake = a := by
          rw [hcanon, hsplit]
          rfl
        unfold wakeVariants specWakeVariants
        rw [hsplit, hw]
        simp
      · unfold wakeVariants specWakeVariants
        rw [hsplit]
        simp [Nat.lt_iff_add_one_le, List.length_cons]
  · intro texts
    simp [listen_for_wake_word, wakeMatch, List.any_eq_true]

/-- Witness for `wake_variant_detection` at the default wake phrase: the
variant "up" belongs to the spec set, and unrelated text does not fire. -/
theorem wake_variant_detection_witness :
    ("up" ∈ specWakeVariants "listen up")
    ∧ wakeMatch "listen up" "hello there" = false :=
  ⟨((wake_variant_detection "listen up" (by decide)).1 "up").mp (by decide),
   (wake_variant_detection "listen up" (by decide)).2.2.2.2.2⟩

/-! ### Special-command processing (`process_command`, command_processor.py lines 6-44) -/

/-- Result of `process_command`: a textual reply, `sys.exit(0)` (`halt`), or
`None` (`toLLM`), the last meaning the input is handed to LLM dispatch. -/
inductive CmdResult where
  | reply (s : String) : CmdResult
  | halt : CmdResult
  | toLLM : CmdResult
  deriving DecidableEq

/-- Dispatch on the extracted bracketed command (command_processor.py lines
24-41): "list models" answers with the model list (or a no-models message),
"exit" terminates the process, anything else yields the unknown-command
message. -/
def processSpecial (models : List String) (actual : String) : CmdResult :=
  if actual = "list models" then
    if models ≠ [] then CmdResult.reply ("Available models: " ++ joinSep ", " models)
    else CmdResult.reply "No Ollama models found. Make sure Ollama is running with models installed."
  else if actual = "exit" then CmdResult.halt
  else CmdResult.reply ("Unknown command: " ++ actual ++ ". Try \x27list models\x27 or \x27exit\x27.")

/-- Body of `process_command` after the environment phrases have been
lower-cased and the input lower-cased and stripped: when both phrases occur,
take the first occurrence of the pre-phrase, find the first occurrence of
the post-phrase at or after its end (`command.find(post_command, start_idx)`),
and only when that occurrence starts strictly later
(`end_idx > start_idx`) extract and dispatch the bracketed text;
otherwise return `toLLM` (Python `None`). -/
def process_command_core (models : List String) (pre post command : String) : CmdResult :=
  if containsSub pre.data command.data ∧ containsSub post.data command.data then
    match firstOccur pre.data command.data with
    | none => CmdResult.toLLM
    | some i =>
      match findFrom post.data command.data (i + pre.data.length) with
      | none => CmdResult.toLLM
      | some endIdx =>
        if i + pre.data.length < endIdx then
          processSpecial models
            (pyStrip (String.mk ((command.data.drop (i + pre.data.length)).take
              (endIdx - (i + pre.data.length)))))
        else CmdResult.toLLM
  else CmdResult.toLLM

/-- `process_command` (command_processor.py lines 6-44): lower-case the
configured phrases, lower-case and strip the input, then run the core. -/
def process_command (models : List String) (preEnv postEnv cmd : String) : CmdResult :=
  process_command_core models (pyLower preEnv) (pyLower postEnv) (pyStrip (pyLower cmd))

/-- The claim's bracket condition as stated: the input contains the
pre-phrase followed later (strictly after its end) by the post-phrase.
Written from the spec text. -/
def bracketedSpec (pre post c : List Char) : Bool :=
  (List.range (c.length + 1)).any (fun i =>
    occursAt pre c i && (List.range (c.length + 1)).any (fun j =>
      occursAt post c j && decide (i + pre.length < j)))

/-- The amended bracket condition: taking the first occurrence of the
pre-phrase (position `i`, end `i + |pre|`), the post-phrase occurs somewhere
strictly after that end but does not occur exactly at it. -/
def controlCond (pre post c : List Char) : Prop :=
  ∃ i, occursAt pre c i = true ∧ (∀ k, k < i → occursAt pre c k = false)
    ∧ (∃ j, i + pre.length < j ∧ occursAt post c j = true)
    ∧ occursAt post c (i + pre.length) = false

theorem occursAt_drop (sub l : List Char) (s m : Nat) :
    occursAt sub (l.drop s) m = occursAt sub l (s + m) := by
  unfold occursAt
  rw [List.drop_drop]

theorem findFrom_some {sub l : List Char} {s j : Nat}
    (h : findFrom sub l s = some j) :
    s ≤ j ∧ occursAt sub l j = true ∧
      ∀ k, s ≤ k → k < j → occursAt sub l k = false := by
  unfold findFrom at h
  rcases Option.map_eq_some'.mp h with ⟨m, hm, rfl⟩
  rcases firstOccur_spec sub (l.drop s) m hm with ⟨h1, h2⟩
  refine ⟨Nat.le_add_left s m, ?_, ?_⟩
  · rw [Nat.add_comm, ← occursAt_drop]
    exact h1
  · intro k hsk hkj
    have hk : occursAt sub (l.drop s) (k - s) = false := h2 (k - s) (by omega)
    rw [occursAt_drop, Nat.add_sub_cancel' hsk] at hk
    exact hk

theorem findFrom_of_occursAt {sub l : List Char} {s j : Nat}
    (hocc : occursAt sub l j = true) (hsj : s ≤ j) :
    ∃ j0, findFrom sub l s = some j0 ∧ j0 ≤ j := by
  have hd : occursAt sub (l.drop s) (j - s) = true := by
    rw [occursAt_drop, Nat.add_sub_cancel' hsj]
    exact hocc
  rcases firstOccur_of_occursAt sub (l.drop s) (j - s) hd with ⟨m, hm, hle⟩
  exact ⟨m + s, by simp [findFrom, hm], by omega⟩

theorem processSpecial_ne_toLLM (models : List String) (actual : String) :
    processSpecial models actual ≠ CmdResult.toLLM := by
  unfold processSpecial
  split_ifs <;> simp

/-- Claim C7 counterexample: the input
"hocus pocusabracadabrahocus pocus x abracadabra" contains the pre-phrase
(second occurrence, index 22) followed strictly later by the post-phrase
(index 36), yet `process_command` returns `None` (LLM dispatch), because the
code anchors on the first pre-phrase occurrence and the first post-phrase
occurrence after it starts exactly at its end (`end_idx > start_idx`
fails).  So "treated as a control command exactly when it contains the
pre-phrase followed later by the post-phrase" is false as stated. -/
theorem bracket_first_occurrence_counterexample :
    process_command [] "hocus pocus" "abracadabra"
        "hocus pocusabracadabrahocus pocus x abracadabra" = CmdResult.toLLM
    ∧ bracketedSpec (pyLower "hocus pocus").data (pyLower "abracadabra").data
        (pyStrip (pyLower "hocus pocusabracadabrahocus pocus x abracadabra")).data = true :=
  ⟨by decide, by decide⟩

/-- Claim C7 (amended): the processor treats the (lower-cased, stripped)
input as a control command exactly when, taking the first occurrence of the
pre-phrase, the post-phrase occurs strictly after its end but not exactly at
its end; the substring strictly between the first pre-phrase occurrence and
the first post-phrase occurrence after it, trimmed, is dispatched: matched
against "list models" and "exit" (both phrases and input having been
lower-cased, the match is case-insensitive), an unknown bracketed command
yields the explanatory unknown-command message, and any input not matching
the bracket pattern returns `None`, deferring to LLM dispatch. -/
theorem process_command_characterization (models : List String) (pre post command : String) :
    (process_command_core models pre post command ≠ CmdResult.toLLM
      ↔ controlCond pre.data post.data command.data)
    ∧ (∀ i endIdx, firstOccur pre.data command.data = some i →
        findFrom post.data command.data (i + pre.data.length) = some endIdx →
        i + pre.data.length < endIdx →
        process_command_core models pre post command
          = processSpecial models (pyStrip (String.mk
              ((command.data.drop (i + pre.data.length)).take
                (endIdx - (i + pre.data.length))))))
    ∧ (models ≠ [] → processSpecial models "list models"
        = CmdResult.reply ("Available models: " ++ joinSep ", " models))
    ∧ processSpecial models "exit" = CmdResult.halt
    ∧ (∀ a, a ≠ "list models" → a ≠ "exit" →
        processSpecial models a
          = CmdResult.reply ("Unknown command: " ++ a ++ ". Try \x27list models\x27 or \x27exit\x27.")) := by
  refine ⟨⟨?_, ?_⟩, ?_, ?_, ?_, ?_⟩
  · intro hne
    unfold process_command_core at hne
    by_cases hcond : containsSub pre.data command.data = true ∧
        containsSub post.data command.data = true
    · rw [if_pos hcond] at hne
      rcases hfo : firstOccur pre.data command.data with _ | i
      · simp only [hfo] at hne
        exact absurd rfl hne
      · simp only [hfo] at hne
        rcases hff : findFrom post.data command.data (i + pre.data.length) with _ | endIdx
        · simp only [hff] at hne
          exact absurd rfl hne
        · simp only [hff] at hne
          by_cases hlt : i + pre.data.length < endIdx
          · rcases firstOccur_spec pre.data command.data i hfo with ⟨hocc, hmin⟩
            rcases findFrom_some hff with ⟨hsle, hoccj, hminj⟩
            refine ⟨i, hocc, hmin, ⟨endIdx, hlt, hoccj⟩, ?_⟩
            exact hminj (i + pre.data.length) (Nat.le_refl _) hlt
          · rw [if_neg hlt] at hne
            exact absurd rfl hne
    · rw [if_neg hcond] at hne
      exact absurd rfl hne
  · rintro ⟨i, hocc, hmin, ⟨j, hjlt, hjocc⟩, hnot⟩
    have hfo : firstOccur pre.data command.data = some i := by
      rcases firstOccur_of_occursAt pre.data command.data i hocc with ⟨i2, hi2, hle⟩
      rcases firstOccur_spec pre.data command.data i2 hi2 with ⟨hocc2, _⟩
      have hni : ¬ i2 < i := by
        intro hlt
        have hf := hmin i2 hlt
        rw [hocc2] at hf
        exact Bool.false_ne_true hf.symm
      have hei : i2 = i := by omega
      rw [← hei]
      exact hi2
    have hpre : containsSub pre.data command.data = true := containsSub_of_firstOccur hfo
    have hpost : containsSub post.data command.data = true :=
      (containsSub_iff post.data command.data).mpr ⟨j, hjocc⟩
    rcases findFrom_of_occursAt hjocc (Nat.le_of_lt hjlt) with ⟨j0, hj0, hj0le⟩
    rcases findFrom_some hj0 with ⟨hsj0, hocc0, _⟩
    have hne0 : i + pre.data.length ≠ j0 := by
      intro he
      rw [← he] at hocc0
      rw [hnot] at hocc0
      exact Bool.false_ne_true hocc0
    have hlt0 : i + pre.data.length < j0 := Nat.lt_of_le_of_ne hsj0 hne0
    unfold process_command_core
    rw [if_pos ⟨hpre, hpost⟩]
    simp only [hfo, hj0]
    rw [if_pos hlt0]
    exact processSpecial_ne_toLLM models _
  · intro i endIdx hfo hff hlt
    have hpre : containsSub pre.data command.data = true := containsSub_of_firstOccur hfo
    rcases findFrom_some hff with ⟨_, hoccj, _⟩
    have hpost : containsSub post.data command.data = true :=
      (containsSub_iff post.data command.data).mpr ⟨endIdx, hoccj⟩
    unfold process_command_core
    rw [if_pos ⟨hpre, hpost⟩]
    simp only [hfo, hff]
    rw [if_pos hlt]
  · intro hm
    unfold processSpecial
    rw [if_pos rfl, if_pos hm]
  · unfold processSpecial
    rw [if_neg (by decide), if_pos rfl]
  · intro a ha1 ha2
    unfold processSpecial
    rw [if_neg ha1, if_neg ha2]

/-- Witness for `process_command_characterization`: the bracketed input
"hocus pocus list models abracadabra" satisfies the amended bracket
condition (first pre-phrase occurrence at 0, post-phrase at 24 > 11, none
at 11) and is treated as a control command; and the bracketed command
"exit" halts. -/
theorem process_command_characterization_witness :
    process_command_core ["gemma"] "hocus pocus" "abracadabra"
        "hocus pocus list models abracadabra" ≠ CmdResult.toLLM
    ∧ processSpecial ["gemma"] "exit" = CmdResult.halt :=
  ⟨(process_command_characterization ["gemma"] "hocus pocus" "abracadabra"
      "hocus pocus list models abracadabra").1.mpr
      ⟨0, by decide, fun k hk => absurd hk (Nat.not_lt_zero k),
        ⟨24, by decide, by decide⟩, by decide⟩,
   (process_command_characterization ["gemma"] "hocus pocus" "abracadabra"
      "hocus pocus list models abracadabra").2.2.2.1⟩

/-! ### Phrase capture frame (`listen_for_phrase`, sound_listener.py lines 133-195) -/

/-- An operation actually performed on the audio stream. -/
inductive CaptureOp where
  | start : CaptureOp
  | stop : CaptureOp
  deriving DecidableEq

/-- `start_listening` (lines 44-70): a no-op when already listening,
otherwise the stream is started.  Returns the new `is_listening` flag and
the stream operations performed. -/
def start_listening (isListening : Bool) : Bool × List CaptureOp :=
  if isListening then (isListening, []) else (true, [CaptureOp.start])

/-- `stop_listening` (lines 72-84): a no-op when not listening, otherwise
the stream is stopped. -/
def stop_listening (isListening : Bool) : Bool × List CaptureOp :=
  if isListening then (false, [CaptureOp.stop]) else (isListening, [])

/-- One iteration of the recognition loop inside `listen_for_phrase`:
a final recognition result carrying text, a partial result, or an empty
audio-queue poll. -/
inductive RecEvent where
  | finalRes (t : String) : RecEvent
  | partialRes (t : String) : RecEvent
  | queueEmpty : RecEvent

/-- The recognition loop of `listen_for_phrase` (lines 147-174) over a
finite event trace: a final result with non-empty stripped text returns it
unless the echo filter rejects it; partial results and empty polls are
skipped; `none` means the trace ended (timeout). -/
def phraseLoop (mem : Option String) : List RecEvent → Option String
  | [] => none
  | RecEvent.finalRes t :: rest =>
    if pyStrip t = "" then phraseLoop mem rest
    else if should_ignore_text mem (pyStrip t) then phraseLoop mem rest
    else some (pyStrip t)
  | RecEvent.partialRes _ :: rest => phraseLoop mem rest
  | RecEvent.queueEmpty :: rest => phraseLoop mem rest

/-- `listen_for_phrase` (lines 133-195): record whether capture was not
running (`was_not_listening`), start it in that case, run the recognition
loop (falling back to the final partial result on timeout when it is
non-empty and not an echo), and in the `finally` block stop capture exactly
when this call started it.  Returns the recognized text, the final
`is_listening` flag, and the stream operations performed. -/
def listen_for_phrase (mem : Option String) (isListening : Bool)
    (events : List RecEvent) (finalPartial : String) : String × Bool × List CaptureOp :=
  let wasNot := !isListening
  let s1 := if wasNot then (start_listening isListening).1 else isListening
  let ops1 := if wasNot then (start_listening isListening).2 else []
  let text :=
    match phraseLoop mem events with
    | some t => t
    | none =>
      if pyStrip finalPartial ≠ "" ∧ should_ignore_text mem (pyStrip finalPartial) = false
      then pyStrip finalPartial else ""
  let s2 := if wasNot then (stop_listening s1).1 else s1
  let ops2 := if wasNot then (stop_listening s1).2 else []
  (text, s2, ops1 ++ ops2)

/-- Claim C8: `listen_for_phrase` starts capture iff it was not already
running on entry, and stops it iff it started it itself — the performed
stream operations are `[]` when capture was already running (so the
running-state is untouched) and exactly `[start, stop]` otherwise; on every
exit path (any event trace and final partial) the final running-state
equals the state on entry. -/
theorem listen_for_phrase_capture_frame (mem : Option String) (isListening : Bool)
    (events : List RecEvent) (finalPartial : String) :
    (listen_for_phrase mem isListening events finalPartial).2.2
      = (if isListening then [] else [CaptureOp.start, CaptureOp.stop])
    ∧ (listen_for_phrase mem isListening events finalPartial).2.1 = isListening := by
  cases isListening <;> simp [listen_for_phrase, start_listening, stop_listening]

/-! ### Conversation-controller dispatch (`voice_mode`, voice_mode.py lines 60-96) -/

/-- What `voice_mode` does with one collected command: exit the conversation
on the done phrase, skip an empty command, speak a special-command reply,
halt on the bracketed exit command, or send the text to the LLM and speak
the response. -/
inductive Dispatch where
  | exitConversation : Dispatch
  | noCommand : Dispatch
  | speakSpecial (resp : String) : Dispatch
  | sendLLM (cmd : String) : Dispatch
  | halt : Dispatch
  deriving DecidableEq

/-- The per-command handling in `voice_mode` (voice_mode.py lines 74-92):
the done-phrase check on the lower-cased command runs first, then the
Python truthiness check, then `process_command`, whose `None` result sends
the command to the LLM. -/
def handle_command (models : List String) (donePhrase preEnv postEnv command : String) :
    Dispatch :=
  if containsSub donePhrase.data (pyLower command).data then Dispatch.exitConversation
  else if command = "" then Dispatch.noCommand
  else match process_command models preEnv postEnv command with
    | CmdResult.reply r => Dispatch.speakSpecial r
    | CmdResult.halt => Dispatch.halt
    | CmdResult.toLLM => Dispatch.sendLLM command

/-- Claim C10: when a collection pass ends via overall timeout with nothing
heard, the returned string is the non-empty sentinel
"Sorry, I didn\x27t hear your command.", which under the default
configuration contains neither the done phrase "that will do" nor the
bracket phrases, so the controller dispatches the sentinel text to the LLM
rather than treating the pass as an empty command. -/
theorem sentinel_dispatched_to_llm (models : List String) (events : List Event)
    (lastAct startTime : ℚ)
    (hempty : ∀ e ∈ events, e.text = "")
    (hto : ∃ e ∈ events, (30 : ℚ) < e.checkTime - startTime) :
    listen_for_command "go for it" 30 5 startTime events "" lastAct = some noCommandSentinel
    ∧ noCommandSentinel ≠ ""
    ∧ handle_command models "that will do" "hocus pocus" "abracadabra" noCommandSentinel
        = Dispatch.sendLLM noCommandSentinel := by
  refine ⟨listen_for_command_sentinel "go for it" 30 5 startTime events lastAct hempty hto,
    by decide, ?_⟩
  unfold handle_command
  rw [if_neg (by decide), if_neg (by decide)]
  have hp : process_command models "hocus pocus" "abracadabra" noCommandSentinel
      = CmdResult.toLLM := by
    unfold process_command process_command_core
    rw [if_neg (by decide)]
  simp only [hp]

/-- Witness for `sentinel_dispatched_to_llm`: a trace with one empty
iteration at time 40 produces the sentinel, which is dispatched to the LLM. -/
theorem sentinel_dispatched_to_llm_witness :
    listen_for_command "go for it" 30 5 0 [⟨40, 40, ""⟩] "" 0 = some noCommandSentinel
    ∧ handle_command [] "that will do" "hocus pocus" "abracadabra" noCommandSentinel
        = Dispatch.sendLLM noCommandSentinel := by
  have h := sentinel_dispatched_to_llm [] [⟨40, 40, ""⟩] 0 0
    (by intro e he; simp at he; rw [he]) ⟨⟨40, 40, ""⟩, by simp, by norm_num⟩
  exact ⟨h.1, h.2.2⟩

end SecretFriend
